import Mathlib

/-!
Shallow embedding of the toy-blockstore repository: a content-addressed
block store (src/src/block.rs, src/src/blockstore.rs).  Pure data is
modelled with Lean lists and naturals; the filesystem is modelled as an
explicit state value (files as an association list from paths to byte
lists, plus the set of created directories).  Machine words are naturals
reduced modulo two to the power of the word width where the Rust code
overflows.
-/

set_option autoImplicit false
set_option maxRecDepth 100000

namespace ToyBlockstore

/-! ### List chunking (Rust slice method chunks, used by block_path_raw and
internally by the SHA-256 padding / word decomposition). -/

/-- Fuel-driven chunking: splits a list into consecutive pieces of length
at most k, in order.  With fuel at least the length of the list and k
positive this is exactly Rust slice chunks. -/
def chunksFuel {α : Type} : Nat → Nat → List α → List (List α)
  | 0, _, _ => []
  | _ + 1, _, [] => []
  | fuel + 1, k, x :: xs => (x :: xs).take k :: chunksFuel fuel k ((x :: xs).drop k)

/-- Rust slice chunks: consecutive pieces of length k, the last possibly
shorter.  (Rust panics for k = 0; every use in the repository has k > 0.) -/
def chunks {α : Type} (k : Nat) (l : List α) : List (List α) :=
  chunksFuel l.length k l

/-! ### Byte and word helpers -/

/-- Big-endian byte serialization: n bytes of the value v, most significant
first. -/
def beBytes : Nat → Nat → List Nat
  | 0, _ => []
  | n + 1, v => v / 2 ^ (8 * n) % 256 :: beBytes n v

/-- Big-endian value of a list of bytes. -/
def beVal (l : List Nat) : Nat :=
  l.foldl (fun a b => a * 256 + b) 0

/-- Big-endian bit decomposition: the low w bits of n, most significant
first. -/
def natBits : Nat → Nat → List Bool
  | 0, _ => []
  | w + 1, n => (n / 2 ^ w % 2 == 1) :: natBits w n

/-- Value of a big-endian bit list. -/
def bitsVal (bs : List Bool) : Nat :=
  bs.foldl (fun a b => 2 * a + (if b then 1 else 0)) 0

/-! ### SHA-256 (the contract of the external sha2 crate consumed by
Block::new: deterministic 256-bit digest, implemented here by the FIPS
180-4 algorithm so that the model is executable). -/

/-- 32-bit right rotation. -/
def rotr (n x : Nat) : Nat :=
  (x >>> n ||| x <<< (32 - n)) % 2 ^ 32

def bigS0 (x : Nat) : Nat := rotr 2 x ^^^ rotr 13 x ^^^ rotr 22 x

def bigS1 (x : Nat) : Nat := rotr 6 x ^^^ rotr 11 x ^^^ rotr 25 x

def smallS0 (x : Nat) : Nat := rotr 7 x ^^^ rotr 18 x ^^^ x >>> 3

def smallS1 (x : Nat) : Nat := rotr 17 x ^^^ rotr 19 x ^^^ x >>> 10

def chFn (x y z : Nat) : Nat := x &&& y ^^^ ((x ^^^ 0xffffffff) &&& z)

def majFn (x y z : Nat) : Nat := x &&& y ^^^ x &&& z ^^^ y &&& z

/-- Eight 32-bit words: both the running hash value and the working
registers of the compression loop. -/
structure Words8 where
  a : Nat
  b : Nat
  c : Nat
  d : Nat
  e : Nat
  f : Nat
  g : Nat
  h : Nat
deriving DecidableEq, Repr

/-- SHA-256 round constants (FIPS 180-4, in decimal). -/
def K64 : List Nat :=
  [1116352408, 1899447441, 3049323471, 3921009573,
   961987163, 1508970993, 2453635748, 2870763221,
   3624381080, 310598401, 607225278, 1426881987,
   1925078388, 2162078206, 2614888103, 3248222580,
   3835390401, 4022224774, 264347078, 604807628,
   770255983, 1249150122, 1555081692, 1996064986,
   2554220882, 2821834349, 2952996808, 3210313671,
   3336571891, 3584528711, 113926993, 338241895,
   666307205, 773529912, 1294757372, 1396182291,
   1695183700, 1986661051, 2177026350, 2456956037,
   2730485921, 2820302411, 3259730800, 3345764771,
   3516065817, 3600352804, 4094571909, 275423344,
   430227734, 506948616, 659060556, 883997877,
   958139571, 1322822218, 1537002063, 1747873779,
   1955562222, 2024104815, 2227730452, 2361852424,
   2428436474, 2756734187, 3204031479, 3329325298]

/-- SHA-256 initial hash value (FIPS 180-4, in decimal). -/
def H0 : Words8 :=
  ⟨1779033703, 3144134277, 1013904242, 2773480762,
   1359893119, 2600822924, 528734635, 1541459225⟩

/-- Message-schedule extension, operating on the reversed schedule so the
recently produced words sit at the front. -/
def scheduleExt : Nat → List Nat → List Nat
  | 0, acc => acc
  | n + 1, acc =>
    let g := fun i => acc.getD i 0
    scheduleExt n ((smallS1 (g 1) + g 6 + smallS0 (g 14) + g 15) % 2 ^ 32 :: acc)

/-- The 64-word message schedule from a 16-word block. -/
def schedule (w16 : List Nat) : List Nat :=
  (scheduleExt 48 w16.reverse).reverse

/-- One compression round. -/
def roundStep (r : Words8) (kw : Nat × Nat) : Words8 :=
  let t1 := (r.h + bigS1 r.e + chFn r.e r.f r.g + kw.1 + kw.2) % 2 ^ 32
  let t2 := (bigS0 r.a + majFn r.a r.b r.c) % 2 ^ 32
  ⟨(t1 + t2) % 2 ^ 32, r.a, r.b, r.c, (r.d + t1) % 2 ^ 32, r.e, r.f, r.g⟩

/-- Compress one 16-word block into the running hash value. -/
def compressBlock (H : Words8) (w16 : List Nat) : Words8 :=
  let r := (K64.zip (schedule w16)).foldl roundStep H
  ⟨(H.a + r.a) % 2 ^ 32, (H.b + r.b) % 2 ^ 32, (H.c + r.c) % 2 ^ 32,
   (H.d + r.d) % 2 ^ 32, (H.e + r.e) % 2 ^ 32, (H.f + r.f) % 2 ^ 32,
   (H.g + r.g) % 2 ^ 32, (H.h + r.h) % 2 ^ 32⟩

/-- Serialize the final hash value to 32 bytes, big-endian per word. -/
def digestBytes (H : Words8) : List Nat :=
  beBytes 4 H.a ++ beBytes 4 H.b ++ beBytes 4 H.c ++ beBytes 4 H.d ++
  beBytes 4 H.e ++ beBytes 4 H.f ++ beBytes 4 H.g ++ beBytes 4 H.h

/-- SHA-256 of a byte sequence (entries taken modulo 256, as Rust u8
guarantees by type). -/
def sha256 (msg : List Nat) : List Nat :=
  let bytes := msg.map (fun b => b % 256)
  let padZeros := (64 - (bytes.length + 9) % 64) % 64
  let padded := bytes ++ (0x80 :: List.replicate padZeros 0) ++
    beBytes 8 (bytes.length * 8)
  let blocks := (chunks 64 padded).map (fun blk => (chunks 4 blk).map beVal)
  digestBytes (blocks.foldl compressBlock H0)

/-! ### Multihash and CID (contracts of the external multihash and cid
crates consumed by Block::new: self-describing hash wrapping with a
64-byte size bound, and the canonical CIDv1 text rendering, which is the
multibase base32-lowercase encoding of the binary identifier). -/

/-- Unsigned LEB128 varint encoding, fuel-driven (fuel n + 1 always
suffices). -/
def varintFuel : Nat → Nat → List Nat
  | 0, _ => []
  | fuel + 1, n => if n < 128 then [n] else (n % 128 + 128) :: varintFuel fuel (n / 128)

/-- Unsigned LEB128 varint encoding of a natural number. -/
def varint (n : Nat) : List Nat :=
  varintFuel (n + 1) n

/-- Error type of the multihash crate wrap operation. -/
inductive MhError where
  | invalidSize
deriving DecidableEq, Repr

/-- A multihash value: hash-function code plus digest bytes. -/
structure Multihash where
  code : Nat
  digest : List Nat
deriving DecidableEq, Repr

/-- Multihash wrap: stores the digest with its hash-function code, failing
when the digest exceeds the 64-byte capacity of the default multihash
type used by the repository. -/
def Multihash.wrap (code : Nat) (digest : List Nat) : Except MhError Multihash :=
  if digest.length > 64 then .error .invalidSize else .ok ⟨code, digest⟩

/-- Binary serialization of a multihash: code varint, size varint, digest. -/
def Multihash.bytes (mh : Multihash) : List Nat :=
  varint mh.code ++ varint mh.digest.length ++ mh.digest

/-- A content identifier: version, content-type codec and multihash. -/
structure Cid where
  version : Nat
  codec : Nat
  mh : Multihash
deriving DecidableEq, Repr

/-- Cid::new_v1 of the cid crate. -/
def Cid.newV1 (codec : Nat) (mh : Multihash) : Cid :=
  ⟨1, codec, mh⟩

/-- The RFC 4648 base32 lowercase alphabet. -/
def base32Alphabet : List Char :=
  "abcdefghijklmnopqrstuvwxyz234567".toList

/-- Base32 lowercase encoding without padding: the byte stream as bits,
grouped in fives (the last group zero-padded on the right), each group
mapped through the alphabet. -/
def base32 (bytes : List Nat) : List Char :=
  (chunks 5 (bytes.flatMap (natBits 8))).map
    (fun g => base32Alphabet.getD (bitsVal (g ++ List.replicate (5 - g.length) false)) 'a')

/-- Binary serialization of a CID: version varint, codec varint, multihash
bytes. -/
def Cid.bytes (c : Cid) : List Nat :=
  varint c.version ++ varint c.codec ++ c.mh.bytes

/-- Canonical text rendering of a CIDv1 (Display of the cid crate): the
multibase prefix b followed by the base32-lowercase encoding of the
binary identifier. -/
def cidStr (c : Cid) : List Char :=
  'b' :: base32 c.bytes

/-! ### Block (src/src/block.rs) -/

/-- The numeric multihash code of SHA-256 (const SHA2_256 in block.rs). -/
def SHA2_256 : Nat := 0x12

/-- A block: content identifier plus raw data (struct Block). -/
structure Block where
  cid : Cid
  data : List Nat
deriving DecidableEq, Repr

/-- Block::new: digest the data with SHA-256, wrap the digest into a
multihash, and pair a v1 CID (codec SHA2_256) with the data. -/
def Block.new (data : List Nat) : Except MhError Block :=
  let digest := sha256 data
  match Multihash.wrap SHA2_256 digest with
  | .error e => .error e
  | .ok mh => .ok ⟨Cid.newV1 SHA2_256 mh, data⟩

/-! ### Filesystem model

The filesystem is an explicit state: files as an association list from
paths (lists of path components, each a list of characters) to byte
lists, and the set of directories created so far.  Only the failure the
repository code discriminates on can occur: reading or removing an
absent file yields NotFound. -/

/-- A filesystem path, as an ordered list of components. -/
abbrev FPath := List (List Char)

/-- Error kinds distinguished by the embedded operations: NotFound from
the filesystem, and the encoding failure get_block maps a Block::new
error into. -/
inductive IOErr where
  | notFound
  | encoding
deriving DecidableEq, Repr

/-- Filesystem state: regular files with their contents, and created
directories. -/
structure FS where
  files : List (FPath × List Nat)
  dirs : List FPath
deriving DecidableEq, Repr

/-- Contents of the file at a path, if one exists (first match wins). -/
def findData : List (FPath × List Nat) → FPath → Option (List Nat)
  | [], _ => none
  | (k, v) :: rest, p => if k = p then some v else findData rest p

/-- Boolean membership of a path in a directory list. -/
def hasDir : List FPath → FPath → Bool
  | [], _ => false
  | d :: rest, p => if d = p then true else hasDir rest p

/-- Path::exists — true when a directory or a regular file sits at the
path (errors during the check surface as false, as in Rust). -/
def pathExistsB (fs : FS) (p : FPath) : Bool :=
  hasDir fs.dirs p || (findData fs.files p).isSome

/-- All the directories std::fs::create_dir_all brings into existence for
a path: every nonempty initial segment, the path itself included. -/
def dirsAll (p : FPath) : List FPath :=
  (List.range p.length).map (fun i => p.take (i + 1))

/-- std::fs::create_dir_all: create the path and all its ancestors,
ignoring the ones that already exist. -/
def mkdirAll (p : FPath) (fs : FS) : FS :=
  { fs with dirs := dirsAll p ++ fs.dirs }

/-- Removal of every entry stored under a path. -/
def eraseFile : List (FPath × List Nat) → FPath → List (FPath × List Nat)
  | [], _ => []
  | (k, v) :: rest, p => if k = p then eraseFile rest p else (k, v) :: eraseFile rest p

/-- File::create followed by write_all: truncate or create the file at
the path and store the given bytes. -/
def fsWrite (fs : FS) (p : FPath) (d : List Nat) : FS :=
  { fs with files := (p, d) :: eraseFile fs.files p }

/-- std::fs::read: the file contents, or NotFound when absent. -/
def fsRead (fs : FS) (p : FPath) : Except IOErr (List Nat) :=
  match findData fs.files p with
  | some d => .ok d
  | none => .error .notFound

/-- std::fs::remove_file: drop the file, or NotFound when absent. -/
def fsRemove (fs : FS) (p : FPath) : Except IOErr FS :=
  match findData fs.files p with
  | some _ => .ok { fs with files := eraseFile fs.files p }
  | none => .error .notFound

/-! ### FSStore (src/src/blockstore.rs) -/

/-- const DEFAULT_CHARS_PER_LEVEL in blockstore.rs. -/
def DEFAULT_CHARS_PER_LEVEL : Nat := 15

/-- struct FSStore: root path and shard width, fixed at construction. -/
structure FSStore where
  root : FPath
  chars_per_level : Nat
deriving DecidableEq, Repr

/-- FSStore::create: ensure the root exists (creating it when absent,
scanning nothing), then return a handle with the default shard width. -/
def FSStore.create (root : FPath) (fs : FS) : Except IOErr (FSStore × FS) :=
  let fs' := if pathExistsB fs root then fs else mkdirAll root fs
  .ok (⟨root, DEFAULT_CHARS_PER_LEVEL⟩, fs')

/-- FSStore::block_path_raw: the canonical CID string cut into
consecutive chunks of chars_per_level characters, one path component per
chunk. -/
def FSStore.block_path_raw (chars_per_level : Nat) (cid : Cid) : List (List Char) :=
  chunks chars_per_level (cidStr cid)

/-- FSStore::block_path: the raw sharded path joined under the store
root. -/
def FSStore.block_path (s : FSStore) (cid : Cid) : FPath :=
  s.root ++ FSStore.block_path_raw s.chars_per_level cid

/-- FSStore::put_block: create the parent directories of the block path,
then write the block data there. -/
def put_block (s : FSStore) (b : Block) (fs : FS) : Except IOErr FS :=
  let p := s.block_path b.cid
  .ok (fsWrite (mkdirAll p.dropLast fs) p b.data)

/-- FSStore::has_block: Path::exists on the block path. -/
def has_block (s : FSStore) (cid : Cid) (fs : FS) : Bool :=
  pathExistsB fs (s.block_path cid)

/-- FSStore::get_block: read the file at the block path, propagating any
read error unchanged, and re-derive a Block from the bytes read back; a
Block::new failure is mapped to an encoding error. -/
def get_block (s : FSStore) (cid : Cid) (fs : FS) : Except IOErr (Option Block) :=
  match fsRead fs (s.block_path cid) with
  | .error e => .error e
  | .ok contents =>
    match Block.new contents with
    | .ok b => .ok (some b)
    | .error _ => .error .encoding

/-- FSStore::del_block: remove the file at the block path, propagating
any error, absence included. -/
def del_block (s : FSStore) (cid : Cid) (fs : FS) : Except IOErr FS :=
  fsRemove fs (s.block_path cid)

deriving instance DecidableEq for Except

/-! ### Concrete values used by the closed evaluation theorems -/

/-- The empty filesystem. -/
def emptyFS : FS := ⟨[], []⟩

/-- A concrete one-component root path. -/
def demoRoot : FPath := [['r']]

/-- A concrete store handle over demoRoot, as FSStore::create yields it. -/
def demoStore : FSStore := ⟨demoRoot, DEFAULT_CHARS_PER_LEVEL⟩

/-- The block over the empty byte sequence, exactly as Block::new builds
it. -/
def demoBlock : Block :=
  ⟨Cid.newV1 SHA2_256 ⟨SHA2_256, sha256 []⟩, []⟩

/-- The filesystem demoStore produces by putting demoBlock into the
filesystem that FSStore::create over demoRoot leaves behind. -/
def demoFS1 : FS :=
  (put_block demoStore demoBlock (mkdirAll demoRoot emptyFS)).toOption.getD emptyFS

/-! ### Lemmas about chunking -/

theorem chunksFuel_nil {α : Type} (fuel k : Nat) :
    chunksFuel fuel k ([] : List α) = [] := by
  cases fuel <;> rfl

theorem chunksFuel_flatten {α : Type} (k : Nat) (hk : 0 < k) :
    ∀ (fuel : Nat) (l : List α), l.length ≤ fuel →
      (chunksFuel fuel k l).flatten = l := by
  intro fuel
  induction fuel with
  | zero =>
    intro l hl
    rw [List.eq_nil_of_length_eq_zero (Nat.le_zero.mp hl)]
    rfl
  | succ n ih =>
    intro l hl
    cases l with
    | nil => rfl
    | cons x xs =>
      have hlen : ((x :: xs).drop k).length ≤ n := by
        rw [List.length_drop, List.length_cons]
        rw [List.length_cons] at hl
        omega
      simp only [chunksFuel]
      rw [List.flatten_cons, ih _ hlen, List.take_append_drop]

theorem chunksFuel_mem_ne_nil {α : Type} (k : Nat) (hk : 0 < k) :
    ∀ (fuel : Nat) (l : List α), ∀ c ∈ chunksFuel fuel k l, c ≠ [] ∧ c.length ≤ k := by
  intro fuel
  induction fuel with
  | zero =>
    intro l c hc
    simp [chunksFuel] at hc
  | succ n ih =>
    intro l c hc
    cases l with
    | nil => simp [chunksFuel] at hc
    | cons x xs =>
      simp only [chunksFuel] at hc
      rcases List.mem_cons.mp hc with rfl | hc'
      · cases k with
        | zero => omega
        | succ m =>
          rw [List.take_succ_cons]
          refine ⟨List.cons_ne_nil _ _, ?_⟩
          rw [List.length_cons, List.length_take]
          omega
      · exact ih _ c hc'

theorem chunksFuel_dropLast_length {α : Type} (k : Nat) (_hk : 0 < k) :
    ∀ (fuel : Nat) (l : List α), ∀ c ∈ (chunksFuel fuel k l).dropLast, c.length = k := by
  intro fuel
  induction fuel with
  | zero =>
    intro l c hc
    simp [chunksFuel] at hc
  | succ n ih =>
    intro l c hc
    cases l with
    | nil => simp [chunksFuel] at hc
    | cons x xs =>
      simp only [chunksFuel] at hc
      cases hrest : chunksFuel n k ((x :: xs).drop k) with
      | nil =>
        rw [hrest] at hc
        simp at hc
      | cons r rs =>
        rw [hrest, List.dropLast_cons₂] at hc
        rcases List.mem_cons.mp hc with rfl | hc'
        · have hdrop : (x :: xs).drop k ≠ [] := by
            intro hnil
            rw [hnil, chunksFuel_nil] at hrest
            exact List.cons_ne_nil _ _ hrest.symm
          have hlt : k < (x :: xs).length := by
            by_contra hle
            push_neg at hle
            exact hdrop (List.drop_eq_nil_iff.mpr hle)
          rw [List.length_take]
          omega
        · exact ih _ c (by rw [hrest]; exact hc')

theorem chunks_flatten {α : Type} (k : Nat) (hk : 0 < k) (l : List α) :
    (chunks k l).flatten = l :=
  chunksFuel_flatten k hk l.length l (Nat.le_refl _)

theorem chunks_mem_ne_nil {α : Type} (k : Nat) (hk : 0 < k) (l : List α) :
    ∀ c ∈ chunks k l, c ≠ [] :=
  fun c hc => (chunksFuel_mem_ne_nil k hk l.length l c hc).1

theorem chunks_dropLast_length {α : Type} (k : Nat) (hk : 0 < k) (l : List α) :
    ∀ c ∈ (chunks k l).dropLast, c.length = k :=
  chunksFuel_dropLast_length k hk l.length l

theorem chunks_ne_nil {α : Type} (k : Nat) (l : List α) (h : l ≠ []) :
    chunks k l ≠ [] := by
  cases l with
  | nil => exact absurd rfl h
  | cons x xs =>
    simp only [chunks, List.length_cons, chunksFuel]
    exact List.cons_ne_nil _ _

/-! ### Lemmas about the digest and Block::new -/

theorem beBytes_length (n v : Nat) : (beBytes n v).length = n := by
  induction n generalizing v with
  | zero => rfl
  | succ m ih => simp only [beBytes, List.length_cons, ih]

theorem digestBytes_length (H : Words8) : (digestBytes H).length = 32 := by
  simp [digestBytes, beBytes_length]

theorem sha256_length (msg : List Nat) : (sha256 msg).length = 32 := by
  unfold sha256
  exact digestBytes_length _

theorem Multihash.wrap_sha256 (code : Nat) (d : List Nat) :
    Multihash.wrap code (sha256 d) = .ok ⟨code, sha256 d⟩ := by
  simp [Multihash.wrap, sha256_length]

/-- Block::new never takes the error branch: the SHA-256 digest always
has 32 bytes, within the 64-byte multihash bound. -/
theorem Block.new_eq (d : List Nat) :
    Block.new d = .ok ⟨Cid.newV1 SHA2_256 ⟨SHA2_256, sha256 d⟩, d⟩ := by
  simp [Block.new, Multihash.wrap_sha256]

/-! ### Lemmas about the filesystem model -/

theorem findData_eraseFile_self (l : List (FPath × List Nat)) (p : FPath) :
    findData (eraseFile l p) p = none := by
  induction l with
  | nil => rfl
  | cons e rest ih =>
    obtain ⟨k, v⟩ := e
    by_cases he : k = p
    · rw [eraseFile, if_pos he]
      exact ih
    · rw [eraseFile, if_neg he, findData, if_neg he]
      exact ih

theorem findData_fsWrite_self (fs : FS) (p : FPath) (d : List Nat) :
    findData (fsWrite fs p d).files p = some d := by
  simp [fsWrite, findData]

theorem hasDir_eq_true_iff (l : List FPath) (p : FPath) :
    hasDir l p = true ↔ p ∈ l := by
  induction l with
  | nil => simp [hasDir]
  | cons d rest ih =>
    by_cases hd : d = p
    · subst hd; simp [hasDir]
    · simp [hasDir, hd, ih, Ne.symm hd]

theorem hasDir_append (l1 l2 : List FPath) (p : FPath) :
    hasDir (l1 ++ l2) p = (hasDir l1 p || hasDir l2 p) := by
  induction l1 with
  | nil => rfl
  | cons d rest ih =>
    by_cases hd : d = p <;> simp [hasDir, hd, ih]

theorem mem_dirsAll_length_lt (p q : FPath) (h : q ∈ dirsAll p) :
    0 < q.length ∧ q.length ≤ p.length := by
  simp only [dirsAll, List.mem_map, List.mem_range] at h
  obtain ⟨i, hi, rfl⟩ := h
  rw [List.length_take]
  omega

theorem not_mem_dirsAll_dropLast (p : FPath) (hp : p ≠ []) :
    p ∉ dirsAll p.dropLast := by
  intro hmem
  have hlen := (mem_dirsAll_length_lt _ _ hmem).2
  rw [List.length_dropLast] at hlen
  have hpos : 0 < p.length := List.length_pos.mpr hp
  omega

theorem root_mem_dirsAll (root c : FPath) (hr : root ≠ []) :
    root ∈ dirsAll (root ++ c) := by
  simp only [dirsAll, List.mem_map, List.mem_range]
  have hpos : 0 < root.length := List.length_pos.mpr hr
  refine ⟨root.length - 1, ?_, ?_⟩
  · rw [List.length_append]; omega
  · have : root.length - 1 + 1 = root.length := by omega
    rw [this]
    exact List.take_left _ _

theorem block_path_raw_ne_nil (k : Nat) (cid : Cid) :
    FSStore.block_path_raw k cid ≠ [] :=
  chunks_ne_nil k (cidStr cid) (List.cons_ne_nil _ _)

theorem block_path_ne_nil (s : FSStore) (cid : Cid) :
    s.block_path cid ≠ [] := by
  intro h
  rcases List.append_eq_nil.mp h with ⟨-, hraw⟩
  exact block_path_raw_ne_nil _ _ hraw

theorem fsRead_error_eq (fs : FS) (p : FPath) (e : IOErr)
    (h : fsRead fs p = .error e) : e = .notFound := by
  unfold fsRead at h
  cases hf : findData fs.files p with
  | some d => rw [hf] at h; exact absurd h (by simp)
  | none => rw [hf] at h; exact (Except.error.inj h).symm

theorem fsRead_fsWrite (fs : FS) (p : FPath) (d : List Nat) :
    fsRead (fsWrite fs p d) p = .ok d := by
  unfold fsRead
  rw [findData_fsWrite_self]

/-- Closed form of get_block: since Block::new is total, get is NotFound
on an absent file and otherwise the block recomputed from the stored
bytes. -/
theorem get_block_eq (s : FSStore) (cid : Cid) (fs : FS) :
    get_block s cid fs =
      match findData fs.files (s.block_path cid) with
      | none => .error .notFound
      | some contents =>
        .ok (some ⟨Cid.newV1 SHA2_256 ⟨SHA2_256, sha256 contents⟩, contents⟩) := by
  unfold get_block fsRead
  cases findData fs.files (s.block_path cid) with
  | none => rfl
  | some contents => simp [Block.new_eq]

theorem hasDir_eq_false_iff (l : List FPath) (p : FPath) :
    hasDir l p = false ↔ p ∉ l := by
  rw [Bool.eq_false_iff]
  exact not_congr (hasDir_eq_true_iff l p)

theorem mkdirAll_nil (fs : FS) : mkdirAll [] fs = fs := by
  simp [mkdirAll, dirsAll]

/-! ### Claims -/

/-- C1: the claim says get on a never-written identifier returns Ok(None)
because a NotFound read error is translated into None.  The code performs
no such translation: get_block propagates the NotFound from fs::read via
the question-mark operator.  Evaluated at the failing input (a fresh
store, the identifier of the empty block, an empty filesystem), get
returns the NotFound error and not Ok(None). -/
theorem c1_get_absent_propagates_error :
    get_block demoStore demoBlock.cid emptyFS = .error .notFound ∧
    get_block demoStore demoBlock.cid emptyFS ≠ .ok none := by
  have h1 : get_block demoStore demoBlock.cid emptyFS = .error .notFound := rfl
  refine ⟨h1, ?_⟩
  rw [h1]
  intro hc
  exact Except.noConfusion hc

/-- C2: after a successful put of a block built by the content addresser,
get on the block identifier returns Some of a block whose data equals the
stored data and whose identifier, recomputed from the bytes read back,
equals the stored identifier. -/
theorem c2_put_get_roundtrip (s : FSStore) (b : Block) (fs fs' : FS)
    (hwf : Block.new b.data = .ok b)
    (hput : put_block s b fs = .ok fs') :
    ∃ b', get_block s b.cid fs' = .ok (some b') ∧
      b'.data = b.data ∧ b'.cid = b.cid := by
  simp only [put_block] at hput
  obtain rfl := Except.ok.inj hput
  refine ⟨b, ?_, rfl, rfl⟩
  simp [get_block, fsRead_fsWrite, hwf]

/-- Witness for C2 at concrete inputs: the empty block put into a fresh
store over the one-component demo root. -/
theorem c2_put_get_roundtrip_witness :
    ∃ b', get_block demoStore demoBlock.cid demoFS1 = .ok (some b') ∧
      b'.data = demoBlock.data ∧ b'.cid = demoBlock.cid :=
  c2_put_get_roundtrip demoStore demoBlock (mkdirAll demoRoot emptyFS) demoFS1
    (by decide) (by decide)

/-- C3: for every identifier and every shard width k above zero, the path
sharder cuts the canonical text rendering into consecutive chunks:
concatenating the components in order reproduces the rendering, every
component except possibly the last has length exactly k, and no component
is empty. -/
theorem c3_path_sharder_reconstruct (cid : Cid) (k : Nat) (hk : 0 < k) :
    (FSStore.block_path_raw k cid).flatten = cidStr cid ∧
    (∀ c ∈ (FSStore.block_path_raw k cid).dropLast, c.length = k) ∧
    ∀ c ∈ FSStore.block_path_raw k cid, c ≠ [] :=
  ⟨chunks_flatten k hk _, chunks_dropLast_length k hk _, chunks_mem_ne_nil k hk _⟩

/-- Witness for C3 at the default shard width 15 and the identifier of
the empty block. -/
theorem c3_path_sharder_reconstruct_witness :
    (FSStore.block_path_raw 15 demoBlock.cid).flatten = cidStr demoBlock.cid ∧
    (∀ c ∈ (FSStore.block_path_raw 15 demoBlock.cid).dropLast, c.length = 15) ∧
    ∀ c ∈ FSStore.block_path_raw 15 demoBlock.cid, c ≠ [] :=
  c3_path_sharder_reconstruct demoBlock.cid 15 (by decide)

/-- C4: delete on an identifier whose derived path holds no file (never
written, or already deleted) returns an error — the NotFound from
fs::remove_file — and never success: absence is not treated as a no-op. -/
theorem c4_delete_absent_errors (s : FSStore) (cid : Cid) (fs : FS)
    (h : findData fs.files (s.block_path cid) = none) :
    del_block s cid fs = .error .notFound ∧ ∀ fs', del_block s cid fs ≠ .ok fs' := by
  have hmain : del_block s cid fs = .error .notFound := by
    unfold del_block fsRemove
    rw [h]
  refine ⟨hmain, fun fs' hc => ?_⟩
  rw [hmain] at hc
  exact Except.noConfusion hc

/-- Witness for C4: deleting the never-written empty block from a fresh
store errors. -/
theorem c4_delete_absent_errors_witness :
    del_block demoStore demoBlock.cid emptyFS = .error .notFound ∧
    ∀ fs', del_block demoStore demoBlock.cid emptyFS ≠ .ok fs' :=
  c4_delete_absent_errors demoStore demoBlock.cid emptyFS rfl

/-- C5: has is the existence check at the derived path and never fails
(it yields a boolean, I/O problems surfacing as false); it is false
before the block is put, true immediately after a successful put, and
false again after a successful delete.  The two hypotheses are the frame
conditions of a store in which the identifier was never written: no file
and no directory at the derived path (every directory the store itself
creates is a strict ancestor of a block file, so the second condition
holds in every reachable state). -/
theorem c5_has_presence_lifecycle (s : FSStore) (b : Block) (fs : FS)
    (hdir : hasDir fs.dirs (s.block_path b.cid) = false)
    (habs : findData fs.files (s.block_path b.cid) = none) :
    (∀ cid fs₀, hasDir fs₀.dirs (s.block_path cid) = false →
      has_block s cid fs₀ = (findData fs₀.files (s.block_path cid)).isSome) ∧
    has_block s b.cid fs = false ∧
    ∃ fs', put_block s b fs = .ok fs' ∧ has_block s b.cid fs' = true ∧
      ∃ fs'', del_block s b.cid fs' = .ok fs'' ∧ has_block s b.cid fs'' = false := by
  refine ⟨?_, ?_, ?_⟩
  · intro cid fs₀ h
    unfold has_block pathExistsB
    rw [h, Bool.false_or]
  · unfold has_block pathExistsB
    rw [hdir, habs]
    rfl
  · refine ⟨fsWrite (mkdirAll (s.block_path b.cid).dropLast fs) (s.block_path b.cid) b.data,
      rfl, ?_, ?_⟩
    · unfold has_block pathExistsB
      rw [findData_fsWrite_self]
      simp
    · refine ⟨⟨eraseFile
          (fsWrite (mkdirAll (s.block_path b.cid).dropLast fs) (s.block_path b.cid)
            b.data).files (s.block_path b.cid),
        (fsWrite (mkdirAll (s.block_path b.cid).dropLast fs) (s.block_path b.cid)
            b.data).dirs⟩, ?_, ?_⟩
      · unfold del_block fsRemove
        rw [findData_fsWrite_self]
      · unfold has_block pathExistsB
        dsimp only [fsWrite, mkdirAll]
        rw [findData_eraseFile_self, hasDir_append, hdir,
          (hasDir_eq_false_iff _ _).mpr
            (not_mem_dirsAll_dropLast _ (block_path_ne_nil s b.cid))]
        rfl

/-- Witness for C5: the empty block against a fresh store over the demo
root and the empty filesystem. -/
theorem c5_has_presence_lifecycle_witness :
    (∀ cid fs₀, hasDir fs₀.dirs (demoStore.block_path cid) = false →
      has_block demoStore cid fs₀ =
        (findData fs₀.files (demoStore.block_path cid)).isSome) ∧
    has_block demoStore demoBlock.cid emptyFS = false ∧
    ∃ fs', put_block demoStore demoBlock emptyFS = .ok fs' ∧
      has_block demoStore demoBlock.cid fs' = true ∧
      ∃ fs'', del_block demoStore demoBlock.cid fs' = .ok fs'' ∧
        has_block demoStore demoBlock.cid fs'' = false :=
  c5_has_presence_lifecycle demoStore demoBlock emptyFS rfl rfl

/-- C6: the content addresser is deterministic — in this embedding
Block::new is a pure function, so equal inputs give equal identifiers —
and the identifier it produces wraps exactly the 32-byte SHA-256 digest
of the data. -/
theorem c6_content_addresser_sha256 (d : List Nat) :
    ∃ b, Block.new d = .ok b ∧ b.cid.mh = ⟨SHA2_256, sha256 d⟩ ∧
      (sha256 d).length = 32 ∧ b.cid = Cid.newV1 SHA2_256 ⟨SHA2_256, sha256 d⟩ :=
  ⟨_, Block.new_eq d, rfl, sha256_length d, rfl⟩

/-- C7: the identifier produced for any byte sequence uses the same
numeric code — SHA2_256, that is 0x12 — both as the hash-function code
inside the wrapped multihash and as the content-type codec of the CID. -/
theorem c7_codec_equals_hash_code (d : List Nat) :
    ∃ b, Block.new d = .ok b ∧ b.cid.codec = b.cid.mh.code ∧
      b.cid.codec = SHA2_256 ∧ SHA2_256 = 0x12 :=
  ⟨_, Block.new_eq d, rfl, rfl, rfl⟩

/-- C8: opening a store again over a root that already holds a block put
through a prior handle succeeds, leaves the filesystem untouched (the
root already exists, and opening scans nothing), hands back an equal
handle, and the old block is immediately visible to has and get. -/
theorem c8_reopen_visibility (root : FPath) (fs₀ fs₁ fs₂ : FS) (s₁ : FSStore) (b : Block)
    (hwf : Block.new b.data = .ok b)
    (hc : FSStore.create root fs₀ = .ok (s₁, fs₁))
    (hp : put_block s₁ b fs₁ = .ok fs₂) :
    ∃ s₂ fs₃, FSStore.create root fs₂ = .ok (s₂, fs₃) ∧ s₂ = s₁ ∧ fs₃ = fs₂ ∧
      has_block s₂ b.cid fs₃ = true ∧ get_block s₂ b.cid fs₃ = .ok (some b) := by
  simp only [FSStore.create] at hc
  have hs₁ : s₁ = ⟨root, DEFAULT_CHARS_PER_LEVEL⟩ :=
    (congrArg Prod.fst (Except.ok.inj hc)).symm
  subst hs₁
  simp only [put_block] at hp
  have hfs₂ := Except.ok.inj hp
  have hpath : findData fs₂.files
      (FSStore.block_path ⟨root, DEFAULT_CHARS_PER_LEVEL⟩ b.cid) = some b.data := by
    rw [← hfs₂]
    exact findData_fsWrite_self _ _ _
  have hrootdir : root ≠ [] → hasDir fs₂.dirs root = true := by
    intro hne
    rw [← hfs₂]
    dsimp only [fsWrite, mkdirAll]
    rw [hasDir_append]
    have hmem : root ∈ dirsAll
        (FSStore.block_path ⟨root, DEFAULT_CHARS_PER_LEVEL⟩ b.cid).dropLast := by
      have hraw : FSStore.block_path_raw DEFAULT_CHARS_PER_LEVEL b.cid ≠ [] :=
        block_path_raw_ne_nil _ _
      show root ∈ dirsAll
        (root ++ FSStore.block_path_raw DEFAULT_CHARS_PER_LEVEL b.cid).dropLast
      rw [List.dropLast_append_of_ne_nil _ hraw]
      exact root_mem_dirsAll _ _ hne
    rw [(hasDir_eq_true_iff _ _).mpr hmem]
    rfl
  have hif : (if pathExistsB fs₂ root then fs₂ else mkdirAll root fs₂) = fs₂ := by
    by_cases hex : pathExistsB fs₂ root
    · rw [if_pos hex]
    · rw [if_neg hex]
      have hroot : root = [] := by
        by_contra hne
        apply hex
        unfold pathExistsB
        rw [hrootdir hne]
        rfl
      subst hroot
      exact mkdirAll_nil _
  refine ⟨⟨root, DEFAULT_CHARS_PER_LEVEL⟩, fs₂, ?_, rfl, rfl, ?_, ?_⟩
  · simp only [FSStore.create, hif]
  · unfold has_block pathExistsB
    rw [hpath]
    simp
  · have hb : b = ⟨Cid.newV1 SHA2_256 ⟨SHA2_256, sha256 b.data⟩, b.data⟩ := by
      have hnew := Block.new_eq b.data
      rw [hwf] at hnew
      exact Except.ok.inj hnew
    simp only [get_block_eq, hpath]
    rw [← hb]

/-- Witness for C8: create over the demo root, put the empty block,
create again over the same root. -/
theorem c8_reopen_visibility_witness :
    ∃ s₂ fs₃, FSStore.create demoRoot demoFS1 = .ok (s₂, fs₃) ∧ s₂ = demoStore ∧
      fs₃ = demoFS1 ∧ has_block s₂ demoBlock.cid fs₃ = true ∧
      get_block s₂ demoBlock.cid fs₃ = .ok (some demoBlock) :=
  c8_reopen_visibility demoRoot emptyFS (mkdirAll demoRoot emptyFS) demoFS1
    demoStore demoBlock (by decide) (by decide) (by decide)

/-- C9: block construction never fails — the SHA-256 digest always has
exactly 32 bytes, inside the 64-byte multihash bound, so the error branch
of Multihash::wrap is unreachable — and consequently get never surfaces
the encoding error it would map a Block::new failure into. -/
theorem c9_block_new_total_no_encoding_error (d : List Nat) (s : FSStore) (cid : Cid) (fs : FS) :
    (∃ b, Block.new d = .ok b) ∧ get_block s cid fs ≠ .error .encoding := by
  refine ⟨⟨_, Block.new_eq d⟩, ?_⟩
  rw [get_block_eq]
  cases findData fs.files (s.block_path cid) with
  | none =>
    intro hcontra
    exact IOErr.noConfusion (Except.error.inj hcontra)
  | some contents =>
    intro hcontra
    exact Except.noConfusion hcontra

/-- C10: every store FSStore::create hands out carries the constant shard
width DEFAULT_CHARS_PER_LEVEL, which is 15, together with the root it was
given; both are plain fields of an immutable value (no operation of the
embedding returns a modified store), so every operation derives paths
with the same configuration. -/
theorem c10_create_fixed_configuration (root : FPath) (fs : FS) :
    ∃ s fs', FSStore.create root fs = .ok (s, fs') ∧
      s.chars_per_level = DEFAULT_CHARS_PER_LEVEL ∧ s.root = root ∧
      DEFAULT_CHARS_PER_LEVEL = 15 ∧
      ∀ cid, s.block_path cid = root ++ FSStore.block_path_raw 15 cid :=
  ⟨⟨root, DEFAULT_CHARS_PER_LEVEL⟩, _, rfl, rfl, rfl, rfl, fun _ => rfl⟩

end ToyBlockstore
